import Mathlib

/-!
Verification of the chat-server core of the repository: a shallow embedding of
the account store, the wire codec/framer and the connection handler from
`wire_protocol/protocol.py`, `wire_protocol/operation.py`,
`wire_protocol/server.py` and `grpc_protocol/server.py`.

Strings from the Python source are modelled as lists of unicode characters
(`Str` below): Python `str` indexing/slicing is by code point, which matches
list indexing, and UTF-8 encode/decode round-trips on scalar strings, so a
byte-level model would add nothing the claims need.

Uncaught Python exceptions (`KeyError`, `IndexError`, `ValueError`) are
modelled by the `PyErr` component of an operation's result: the mutations
performed before the raise survive (the server object outlives the crashed
handler thread), the ones after it never happen.
-/

namespace Chat

/-- Characters of a Python `str`. -/
abbrev Str := List Char

/-- One stored message record, `{"from": sender, "message": body}` in
`wire_protocol/server.py` (`{"sender": ..., "message": ...}` in the grpc
variant). -/
structure Msg where
  sender : Str
  body : Str
deriving DecidableEq

/-- One account record: `{'password': ..., 'read_messages': [...],
'unread_messages': [...]}`. -/
structure Account where
  password : Str
  read_messages : List Msg
  unread_messages : List Msg
deriving DecidableEq

/-- The account directory `self.accounts`: a Python dict, modelled as an
insertion-ordered association list (Python dicts preserve insertion order). -/
abbrev Dir := List (Str × Account)

/-- Keys of a Python dict are unique; every reachable directory satisfies
this. -/
def NodupKeys (d : Dir) : Prop := (d.map Prod.fst).Nodup

instance (d : Dir) : Decidable (NodupKeys d) := by
  unfold NodupKeys; infer_instance

/-- `d[u]` as a read: the value at the first (unique) occurrence of key `u`. -/
def lookupAcc (u : Str) : Dir → Option Account
  | [] => none
  | p :: rest => if p.1 = u then some p.2 else lookupAcc u rest

/-- `u in d` for a Python dict. -/
def containsKey (u : Str) (d : Dir) : Bool := (lookupAcc u d).isSome

/-- Overwrite the value stored at key `u` (no-op on other keys). -/
def setAcc (u : Str) (a : Account) : Dir → Dir
  | [] => []
  | p :: rest => if p.1 = u then (p.1, a) :: setAcc u a rest else p :: setAcc u a rest

/-- Python dict assignment `d[u] = a`: replace in place if the key exists,
otherwise append a new entry (insertion order). -/
def dictSet (u : Str) (a : Account) (d : Dir) : Dir :=
  if containsKey u d then setAcc u a d else d ++ [(u, a)]

/-- `del d[u]`: drop the (unique, hence first) entry with key `u`. -/
def eraseKey (u : Str) : Dir → Dir
  | [] => []
  | p :: rest => if p.1 = u then rest else p :: eraseKey u rest

/-- Uncaught Python exceptions that can escape a handler branch. -/
inductive PyErr
  | keyError
  | indexError
  | valueError
deriving DecidableEq

/-- Python slice `l[:n]` for an `int` bound `n` (negative bounds count from
the end, out-of-range bounds clamp). -/
def sliceTo (l : List α) (n : Int) : List α :=
  if n < 0 then l.take ((l.length : Int) + n).toNat else l.take n.toNat

/-- Python slice `l[n:]` for an `int` bound `n`. -/
def sliceFrom (l : List α) (n : Int) : List α :=
  if n < 0 then l.drop ((l.length : Int) + n).toNat else l.drop n.toNat

/-- Python `del l[i]` for an `int` index `i`: negative indices count from the
end; `none` models the `IndexError` raised when the effective index is out of
range. -/
def pyDelIdx (l : List α) (i : Int) : Option (List α) :=
  let eff : Int := if i < 0 then (l.length : Int) + i else i
  if 0 ≤ eff ∧ eff < (l.length : Int) then some (l.eraseIdx eff.toNat)
  else none

/-- Accumulator loop of `parseDigits`. -/
def parseDigitsGo : Str → Nat → Option Nat
  | [], acc => some acc
  | c :: t, acc => if c.isDigit then parseDigitsGo t (10 * acc + (c.toNat - 48)) else none

/-- Decimal digit run; `none` on an empty or non-digit run (part of Python
`int(s)`). -/
def parseDigits : Str → Option Nat
  | [] => none
  | ds => parseDigitsGo ds 0

/-- The whitespace stripping `int()` performs (the only whitespace this
server ever feeds it is the framer's space padding). -/
def stripSpaces (s : Str) : Str :=
  ((s.dropWhile (fun c => c = ' ')).reverse.dropWhile (fun c => c = ' ')).reverse

/-- Sign and digit-run parsing of Python `int()` after stripping. -/
def pyIntCore : Str → Option Int
  | '-' :: ds => (parseDigits ds).map (fun n => -(n : Int))
  | '+' :: ds => (parseDigits ds).map (fun n => (n : Int))
  | ds => (parseDigits ds).map (fun n => (n : Int))

/-- Python `int(s)` on the strings this server feeds it: strip the space
padding the framer adds, accept an optional sign and a decimal digit run;
`none` models the `ValueError` on anything else (in particular on a blank or
empty string). -/
def pyInt (s : Str) : Option Int := pyIntCore (stripSpaces s)

/-- Python `s.split('\n', 1)` followed by taking both pieces: `none` models
the `IndexError` of accessing element 1 when the string has no newline. -/
def splitOnceNl : Str → Option (Str × Str)
  | [] => none
  | c :: t =>
    if c = '\n' then some ([], t)
    else (splitOnceNl t).map (fun p => (c :: p.1, p.2))

/-- Python `s.split('\n', 2)` followed by taking all three pieces. -/
def splitTwiceNl (s : Str) : Option (Str × Str × Str) :=
  (splitOnceNl s).bind (fun p => (splitOnceNl p.2).map (fun q => (p.1, q.1, q.2)))

/-- Python `sep.join l`. -/
def joinWith (sep : Str) : List Str → Str
  | [] => []
  | [x] => x
  | x :: y :: xs => x ++ sep ++ joinWith sep (y :: xs)

/-- Python substring containment `needle in hay`. -/
def pyIn (needle hay : Str) : Bool :=
  match hay with
  | [] => needle.isEmpty
  | _ :: t => needle.isPrefixOf hay || pyIn needle t

/-- Python `s.lower()` (scalar-wise, which is what `str.lower` does for the
ASCII usernames this server handles). -/
def lowerStr (s : Str) : Str := s.map Char.toLower

/-! ## Account Store operations

Each definition embeds the body of one branch of
`Server.handle_client` in `wire_protocol/server.py` (equivalently the
corresponding `ChatService` method of `grpc_protocol/server.py`, which is the
same code modulo response formatting; the one behavioural difference, in the
account search, gets two separate definitions below). -/

/-- `server.py` LOGIN branch (lines 99-114): existing account compares the
password; unknown username creates the account. Returns the new directory and
the success flag. -/
def loginOp (username password : Str) (d : Dir) : Dir × Bool :=
  match lookupAcc username d with
  | some a => (d, decide (a.password = password))
  | none => (dictSet username ⟨password, [], []⟩ d, true)

/-- `server.py` SEND_MESSAGE branch (lines 117-132): append to the
recipient's unread list if the recipient exists. -/
def sendMessageOp (sender recipient body : Str) (d : Dir) : Dir × Bool :=
  match lookupAcc recipient d with
  | some a =>
    (dictSet recipient { a with unread_messages := a.unread_messages ++ [⟨sender, body⟩] } d, true)
  | none => (d, false)

/-- `server.py` READ_UNREAD branch (lines 135-148): slice off the first
`per_page` unread messages, extend the read list with them, keep the rest
unread. Unknown username raises `KeyError`. Returns the new directory, the
popped messages, and the exception if one was raised. -/
def readUnreadOp (username : Str) (perPage : Int) (d : Dir) :
    Dir × List Msg × Option PyErr :=
  match lookupAcc username d with
  | none => (d, [], some .keyError)
  | some a =>
    let taken := sliceTo a.unread_messages perPage
    (dictSet username
      { a with
        read_messages := a.read_messages ++ taken
        unread_messages := sliceFrom a.unread_messages perPage } d,
      taken, none)

/-- `server.py` READ_ALL branch (lines 151-157): return the read list,
unmodified. -/
def readAllOp (username : Str) (d : Dir) : List Msg × Option PyErr :=
  match lookupAcc username d with
  | none => ([], some .keyError)
  | some a => (a.read_messages, none)

/-- `server.py` COUNT_UNREAD branch (lines 160-164): return the unread list,
unmodified. -/
def countUnreadOp (username : Str) (d : Dir) : List Msg × Option PyErr :=
  match lookupAcc username d with
  | none => ([], some .keyError)
  | some a => (a.unread_messages, none)

/-- `wire_protocol/server.py` LIST_ACCOUNTS branch (lines 167-175): keep the
usernames whose lowercased form contains the query — the query itself is NOT
lowercased in this variant. -/
def listAccountsWire (query : Str) (d : Dir) : List Str :=
  (d.map Prod.fst).filter (fun acc => pyIn query (lowerStr acc))

/-- `grpc_protocol/server.py` `ListAccounts` (lines 143-157), identical to
`json_protocol/server.py` lines 119-124: the query IS lowercased before the
containment test. -/
def listAccountsGrpc (query : Str) (d : Dir) : List Str :=
  let q := lowerStr query
  (d.map Prod.fst).filter (fun acc => pyIn q (lowerStr acc))

/-- `server.py` DELETE_MESSAGE branch (lines 178-186):
`del accounts[username]["read_messages"][idx]` with no bounds check — a
missing username raises `KeyError`, an out-of-range index raises
`IndexError`; both leave the directory untouched. -/
def deleteMessageOp (username : Str) (idx : Int) (d : Dir) : Dir × Option PyErr :=
  match lookupAcc username d with
  | none => (d, some .keyError)
  | some a =>
    match pyDelIdx a.read_messages idx with
    | none => (d, some .indexError)
    | some l => (dictSet username { a with read_messages := l } d, none)

/-- One element step of the cascading-delete loop of
`wire_protocol/server.py` lines 194-203: the loop walks a reversed copy of
the original list keeping a descending index `i` into the live list and
deletes `cur[i]` whenever the original element at `i` was sent by the deleted
user. -/
def cascadeStep (username : Str) (orig : List Msg) (cur : List Msg) (i : Nat) : List Msg :=
  match orig[i]? with
  | some m => if m.sender = username then cur.eraseIdx i else cur
  | none => cur

/-- The full reverse-iteration delete pass over one message list
(`wire_protocol/server.py` lines 194-198 for unread, 199-203 for read). -/
def cascadePass (username : Str) (orig : List Msg) : List Msg :=
  (List.range orig.length).reverse.foldl (cascadeStep username orig) orig

/-- `wire_protocol/server.py` DELETE_ACCOUNT branch (lines 189-208): run the
cascade pass over every account's unread and read lists, then
`del accounts[username]` — which raises `KeyError` (after the cascade
mutations!) if the username is unknown. -/
def deleteAccountWire (username : Str) (d : Dir) : Dir × Option PyErr :=
  let d1 := d.map (fun p =>
    (p.1, { p.2 with
            unread_messages := cascadePass username p.2.unread_messages
            read_messages := cascadePass username p.2.read_messages }))
  if containsKey username d1 then (eraseKey username d1, none)
  else (d1, some .keyError)

/-- `grpc_protocol/server.py` `DeleteAccount` (lines 176-193): same shape,
with the two delete loops written as filtering list comprehensions. -/
def deleteAccountGrpc (username : Str) (d : Dir) : Dir × Option PyErr :=
  let d1 := d.map (fun p =>
    (p.1, { p.2 with
            unread_messages := p.2.unread_messages.filter (fun m => ¬(m.sender = username))
            read_messages := p.2.read_messages.filter (fun m => ¬(m.sender = username)) }))
  if containsKey username d1 then (eraseKey username d1, none)
  else (d1, some .keyError)

/-! ## Operation registry, wire codec, framer and connection handler
(`wire_protocol/operation.py`, `wire_protocol/protocol.py`,
`wire_protocol/server.py`). -/

namespace Operations

/-- `operation.py` line 7. -/
def SUCCESS : Str := "00".data

/-- `operation.py` line 8. -/
def FAILURE : Str := "01".data

/-- `operation.py` line 10. -/
def SEND_MESSAGE : Str := "10".data

/-- `operation.py` line 11. -/
def READ_UNREAD : Str := "11".data

/-- `operation.py` line 13. -/
def COUNT_UNREAD : Str := "13".data

/-- `operation.py` line 14. -/
def LOGIN : Str := "14".data

/-- `operation.py` lines 12 and 15: the class body binds `READ_ALL` twice
("12" then "15"); Python keeps the last binding, so the live code is "15". -/
def READ_ALL : Str := "15".data

/-- `operation.py` line 16. -/
def LIST_ACCOUNTS : Str := "16".data

/-- `operation.py` line 17. -/
def DELETE_MESSAGE : Str := "17".data

/-- `operation.py` line 18. -/
def DELETE_ACCOUNT : Str := "18".data

end Operations

/-- `Server.VERSION` (`wire_protocol/server.py` line 16). -/
def VERSION : Str := "1".data

/-- The `{version, operation, info}` dict travelling between `serialize` and
`deserialize` (`wire_protocol/protocol.py`). -/
structure Envelope where
  version : Str
  operation : Str
  info : Str
deriving DecidableEq

/-- `protocol.py` `serialize` (lines 1-17): concatenate version, operation
code and payload. -/
def serialize (e : Envelope) : Str :=
  e.version ++ e.operation ++ e.info

/-- `protocol.py` `deserialize` (lines 19-38): character 0 is the version,
characters 1-2 the operation, the rest the payload; `none` models the
`IndexError` of `data[0]` on empty input. -/
def deserialize (s : Str) : Option Envelope :=
  match s with
  | [] => none
  | c :: rest => some ⟨[c], rest.take 2, rest.drop 2⟩

/-- What the framer read path does with one received length header
(`wire_protocol/server.py` lines 83-86). -/
inductive HeaderOutcome
  | peerClosed
  | frameLen (n : Int)
  | err
deriving DecidableEq

/-- `wire_protocol/server.py` lines 83-86: `if not msg_len: break` treats
exactly the EMPTY decoded header as peer-closed; any other header — including
one that is all space padding — goes to `int(msg_len)`, whose `ValueError`
on a non-numeric header is uncaught (`err`). -/
def headerStep (hdr : Str) : HeaderOutcome :=
  if hdr.isEmpty then .peerClosed
  else
    match pyInt hdr with
    | some n => .frameLen n
    | none => .err

/-- The record separator `"\n\t\n"` used in response payloads. -/
def RSEP : Str := "\n\t\n".data

/-- `f"{msg['from']} {msg['message']}"`. -/
def fmtMsg (m : Msg) : Str := m.sender ++ [' '] ++ m.body

/-- `"\n\t\n".join(...)` over formatted messages. -/
def joinMsgs (l : List Msg) : Str := joinWith RSEP (l.map fmtMsg)

/-- A response envelope (the server always stamps its own `VERSION`). -/
def mkResp (op info : Str) : Envelope := ⟨VERSION, op, info⟩

/-- Outcome of handling one request envelope: the directory after the
request, the response sent (none on an unrecognised operation code), whether
`connection_flag` is still true afterwards, and the uncaught exception if the
branch raised one (which kills the handler thread; the directory mutations
made before the raise persist in the shared server object). -/
structure StepResult where
  dir : Dir
  resp : Option Envelope
  alive : Bool
  err : Option PyErr
deriving DecidableEq

/-- The `if/elif` dispatch chain of `Server.handle_client`
(`wire_protocol/server.py` lines 99-208), acting on a directory given the
envelope's operation code and payload. -/
def dispatch (d : Dir) (oper info : Str) : Dir × Option Envelope × Option PyErr :=
  if oper = Operations.LOGIN then
    match splitOnceNl info with
    | none => (d, none, some .indexError)
    | some (username, password) =>
      let r := loginOp username password d
      (r.1, some (mkResp (if r.2 then Operations.SUCCESS else Operations.FAILURE) []), none)
  else if oper = Operations.SEND_MESSAGE then
    match splitTwiceNl info with
    | none => (d, none, some .indexError)
    | some (sender, recipient, body) =>
      let r := sendMessageOp sender recipient body d
      if r.2 then
        (r.1, some (mkResp Operations.SUCCESS "Send message successfully.".data), none)
      else
        (r.1, some (mkResp Operations.FAILURE "Invalid recipient. Please enter a valid username.".data), none)
  else if oper = Operations.READ_UNREAD then
    match splitOnceNl info with
    | none => (d, none, some .indexError)
    | some (username, cnt) =>
      match pyInt cnt with
      | none => (d, none, some .valueError)
      | some n =>
        let r := readUnreadOp username n d
        match r.2.2 with
        | some e => (r.1, none, some e)
        | none => (r.1, some (mkResp Operations.SUCCESS (joinMsgs r.2.1)), none)
  else if oper = Operations.READ_ALL then
    match readAllOp info d with
    | (_, some e) => (d, none, some e)
    | (msgs, none) => (d, some (mkResp Operations.SUCCESS (joinMsgs msgs)), none)
  else if oper = Operations.COUNT_UNREAD then
    match countUnreadOp info d with
    | (_, some e) => (d, none, some e)
    | (msgs, none) => (d, some (mkResp Operations.SUCCESS (joinMsgs msgs)), none)
  else if oper = Operations.LIST_ACCOUNTS then
    match splitOnceNl info with
    | none => (d, none, some .indexError)
    | some (_, query) =>
      (d, some (mkResp Operations.SUCCESS (joinWith ['\n'] (listAccountsWire query d))), none)
  else if oper = Operations.DELETE_MESSAGE then
    match splitOnceNl info with
    | none => (d, none, some .indexError)
    | some (username, idxs) =>
      match pyInt idxs with
      | none => (d, none, some .valueError)
      | some idx =>
        match deleteMessageOp username idx d with
        | (d', none) => (d', some (mkResp Operations.SUCCESS []), none)
        | (d', some e) => (d', none, some e)
  else if oper = Operations.DELETE_ACCOUNT then
    match deleteAccountWire info d with
    | (d', none) => (d', some (mkResp Operations.SUCCESS []), none)
    | (d', some e) => (d', none, some e)
  else
    (d, none, none)

/-- One iteration of the `Server.handle_client` loop on a decoded envelope
(`wire_protocol/server.py` lines 89-208). A version mismatch sets
`connection_flag = False` (line 93) — and then FALLS THROUGH into the
dispatch chain: the request is still interpreted, executed and answered
before the loop condition is re-checked. -/
def handleEnvelope (d : Dir) (e : Envelope) : StepResult :=
  let alive := decide (e.version = VERSION)
  let r := dispatch d e.operation e.info
  ⟨r.1, r.2.1, alive, r.2.2⟩

/-! ## Directory lemmas -/

theorem lookupAcc_setAcc_ne (u v : Str) (a' : Account) (d : Dir) (h : ¬ v = u) :
    lookupAcc v (setAcc u a' d) = lookupAcc v d := by
  induction d with
  | nil => rfl
  | cons p t ih =>
    obtain ⟨k, b⟩ := p
    by_cases hk : k = u
    · have hkv : ¬ k = v := fun hc => h (hc ▸ hk)
      simp only [setAcc, lookupAcc, if_pos hk, if_neg hkv]
      exact ih
    · by_cases hkv : k = v
      · simp only [setAcc, lookupAcc, if_neg hk, if_pos hkv]
      · simp only [setAcc, lookupAcc, if_neg hk, if_neg hkv]
        exact ih

theorem lookupAcc_setAcc_self (u : Str) (a a' : Account) (d : Dir)
    (h : lookupAcc u d = some a) : lookupAcc u (setAcc u a' d) = some a' := by
  induction d with
  | nil => exact absurd h (by simp [lookupAcc])
  | cons p t ih =>
    obtain ⟨k, b⟩ := p
    by_cases hk : k = u
    · simp only [setAcc, lookupAcc, if_pos hk]
    · simp only [lookupAcc, if_neg hk] at h
      simp only [setAcc, lookupAcc, if_neg hk]
      exact ih h

theorem setAcc_of_not_mem (u : Str) (a' : Account) (d : Dir)
    (h : ¬ u ∈ d.map Prod.fst) : setAcc u a' d = d := by
  induction d with
  | nil => rfl
  | cons p t ih =>
    obtain ⟨k, b⟩ := p
    rw [List.map_cons, List.mem_cons] at h
    push_neg at h
    have hk : ¬ k = u := fun hc => h.1 hc.symm
    simp only [setAcc, if_neg hk]
    rw [ih h.2]

/-- Under unique keys, a successful lookup splits the directory around the
entry, and `setAcc` rewrites exactly that entry. -/
theorem setAcc_decomp (u : Str) (a : Account) (d : Dir)
    (hnodup : NodupKeys d) (h : lookupAcc u d = some a) :
    ∃ d₁ d₂, d = d₁ ++ (u, a) :: d₂ ∧ ¬ u ∈ d₁.map Prod.fst ∧ ¬ u ∈ d₂.map Prod.fst ∧
      ∀ a', setAcc u a' d = d₁ ++ (u, a') :: d₂ := by
  induction d with
  | nil => exact absurd h (by simp [lookupAcc])
  | cons p t ih =>
    obtain ⟨k, b⟩ := p
    have hstep : ¬ k ∈ t.map Prod.fst ∧ NodupKeys t := by
      unfold NodupKeys at hnodup ⊢
      rw [List.map_cons, List.nodup_cons] at hnodup
      exact hnodup
    by_cases hk : k = u
    · subst hk
      have hb : b = a := by
        simp only [lookupAcc, if_pos rfl] at h
        exact Option.some.inj h
      subst hb
      refine ⟨[], t, rfl, by simp, hstep.1, ?_⟩
      intro a'
      rw [show setAcc k a' ((k, b) :: t) = (k, a') :: setAcc k a' t from by simp [setAcc]]
      rw [setAcc_of_not_mem _ _ _ hstep.1, List.nil_append]
    · have h' : lookupAcc u t = some a := by
        simpa only [lookupAcc, if_neg hk] using h
      obtain ⟨d₁, d₂, heq, h1, h2, hset⟩ := ih hstep.2 h'
      refine ⟨(k, b) :: d₁, d₂, by rw [heq, List.cons_append], ?_, h2, ?_⟩
      · rw [List.map_cons, List.mem_cons]
        push_neg
        exact ⟨fun hc => hk hc.symm, h1⟩
      · intro a'
        simp only [setAcc, if_neg hk, List.cons_append]
        rw [hset a']

theorem setAcc_lookup_self (u : Str) (a : Account) (d : Dir)
    (hnodup : NodupKeys d) (h : lookupAcc u d = some a) : setAcc u a d = d := by
  obtain ⟨d₁, d₂, heq, _, _, hset⟩ := setAcc_decomp u a d hnodup h
  rw [hset a, heq]

theorem dictSet_of_lookup (u : Str) (a a' : Account) (d : Dir)
    (h : lookupAcc u d = some a) : dictSet u a' d = setAcc u a' d := by
  unfold dictSet containsKey
  rw [h]
  rfl

theorem nodupKeys_cons {p : Str × Account} {t : Dir} (h : NodupKeys (p :: t)) :
    ¬ p.1 ∈ t.map Prod.fst ∧ NodupKeys t := by
  unfold NodupKeys at h ⊢
  rw [List.map_cons, List.nodup_cons] at h
  exact h

/-- With unique keys, deleting the first matching entry is the same as
filtering the key out. -/
theorem eraseKey_eq_filter (u : Str) (d : Dir) (hnodup : NodupKeys d) :
    eraseKey u d = d.filter (fun p => ¬(p.1 = u)) := by
  induction d with
  | nil => rfl
  | cons p t ih =>
    obtain ⟨k, b⟩ := p
    have hstep := nodupKeys_cons hnodup
    by_cases hk : k = u
    · rw [show eraseKey u ((k, b) :: t) = t from by simp [eraseKey, hk]]
      rw [show ((k, b) :: t).filter (fun p => ¬(p.1 = u)) = t.filter (fun p => ¬(p.1 = u))
        from by simp [List.filter_cons, hk]]
      rw [List.filter_eq_self.mpr]
      intro x hx
      have : ¬ x.1 = u := by
        intro hc
        exact hstep.1 (by
          rw [hk]
          exact List.mem_map.mpr ⟨x, hx, hc⟩)
      simpa using this
    · rw [show eraseKey u ((k, b) :: t) = (k, b) :: eraseKey u t from by simp [eraseKey, hk]]
      rw [show ((k, b) :: t).filter (fun p => ¬(p.1 = u)) =
          (k, b) :: t.filter (fun p => ¬(p.1 = u)) from by simp [List.filter_cons, hk]]
      rw [ih hstep.2]

/-- Deleting the element at the position right after a prefix removes exactly
that element. -/
theorem eraseIdx_append_cons {α : Type} (l₁ : List α) (x : α) (l₂ : List α) :
    (l₁ ++ x :: l₂).eraseIdx l₁.length = l₁ ++ l₂ := by
  induction l₁ with
  | nil => rfl
  | cons y ys ih =>
    simp only [List.cons_append, List.length_cons, List.eraseIdx_cons_succ]
    rw [ih]

/-- Invariant of the reverse-iteration delete loop: running the loop over the
first `n` positions of the live list `orig.take n ++ tail` filters the
processed prefix and leaves the tail alone. -/
theorem cascade_fold (username : Str) (orig : List Msg) :
    ∀ (n : Nat), n ≤ orig.length → ∀ (tail : List Msg),
      (List.range n).reverse.foldl (cascadeStep username orig) (orig.take n ++ tail) =
        (orig.take n).filter (fun m => ¬(m.sender = username)) ++ tail := by
  intro n
  induction n with
  | zero => intro _ tail; simp
  | succ n ih =>
    intro hle tail
    have hn : n < orig.length := Nat.lt_of_succ_le hle
    have hlen : (orig.take n).length = n := by
      rw [List.length_take]
      exact Nat.min_eq_left (Nat.le_of_lt hn)
    rw [List.range_succ, List.reverse_append, List.reverse_singleton,
      List.singleton_append, List.foldl_cons, List.take_succ,
      List.getElem?_eq_getElem hn, Option.toList_some, List.append_assoc,
      List.singleton_append]
    rw [show cascadeStep username orig (orig.take n ++ orig[n] :: tail) n =
        if orig[n].sender = username then
          (orig.take n ++ orig[n] :: tail).eraseIdx n
        else orig.take n ++ orig[n] :: tail from by
      unfold cascadeStep
      rw [List.getElem?_eq_getElem hn]]
    by_cases hs : orig[n].sender = username
    · rw [if_pos hs]
      rw [show (orig.take n ++ orig[n] :: tail).eraseIdx n = orig.take n ++ tail from by
        have h := eraseIdx_append_cons (orig.take n) orig[n] tail
        rw [hlen] at h
        exact h]
      rw [ih (Nat.le_of_lt hn) tail, List.filter_append]
      rw [show List.filter (fun m => ¬(m.sender = username)) [orig[n]] = [] from by
        simp [List.filter_cons, hs]]
      rw [List.append_nil]
    · rw [if_neg hs]
      rw [ih (Nat.le_of_lt hn) (orig[n] :: tail), List.filter_append]
      rw [show List.filter (fun m => ¬(m.sender = username)) [orig[n]] = [orig[n]] from by
        simp [List.filter_cons, hs]]
      rw [List.append_assoc, List.singleton_append]

/-- The reverse-iteration delete pass of `handle_client` DELETE_ACCOUNT
computes exactly a filter: it removes every message from the given sender and
keeps the rest in order (the descending index makes deletion safe). -/
theorem cascadePass_eq_filter (username : Str) (l : List Msg) :
    cascadePass username l = l.filter (fun m => ¬(m.sender = username)) := by
  have h := cascade_fold username l l.length (Nat.le_refl _) []
  rw [List.take_length, List.append_nil, List.append_nil] at h
  unfold cascadePass
  exact h

/-- Filtering commutes with a map when the predicates correspond. -/
theorem filter_map_comm {α β : Type} (f : α → β) (p : β → Bool) (q : α → Bool)
    (h : ∀ x, p (f x) = q x) (l : List α) :
    (l.map f).filter p = (l.filter q).map f := by
  induction l with
  | nil => rfl
  | cons x t ih =>
    rw [List.map_cons, List.filter_cons, List.filter_cons, h x]
    cases hq : q x
    · simpa using ih
    · simpa using ih

/-! ## The ownership multiset of accepted messages -/

/-- All messages currently in one account's inbox (read first, then unread),
tagged with the owning username. -/
def tagMsgs (p : Str × Account) : List (Str × Msg) :=
  (p.2.read_messages ++ p.2.unread_messages).map (fun m => (p.1, m))

/-- Every message held anywhere in the directory, tagged with its owner. -/
def allMsgs : Dir → List (Str × Msg)
  | [] => []
  | p :: t => tagMsgs p ++ allMsgs t

/-- The owner-tagged message multiset of the directory: the formal carrier of
the "every accepted message sits in exactly one sequence" invariant. -/
def inboxes (d : Dir) : Multiset (Str × Msg) := (allMsgs d : Multiset (Str × Msg))

theorem allMsgs_append (d₁ d₂ : Dir) :
    allMsgs (d₁ ++ d₂) = allMsgs d₁ ++ allMsgs d₂ := by
  induction d₁ with
  | nil => rfl
  | cons p t ih =>
    rw [List.cons_append,
      show allMsgs (p :: (t ++ d₂)) = tagMsgs p ++ allMsgs (t ++ d₂) from rfl,
      show allMsgs (p :: t) = tagMsgs p ++ allMsgs t from rfl,
      ih, List.append_assoc]

/-- The two slices of one READ_UNREAD call partition the unread list. -/
theorem sliceTo_append_sliceFrom {α : Type} (l : List α) (n : Int) :
    sliceTo l n ++ sliceFrom l n = l := by
  unfold sliceTo sliceFrom
  by_cases h : n < 0
  · rw [if_pos h, if_pos h, List.take_append_drop]
  · rw [if_neg h, if_neg h, List.take_append_drop]

theorem lookupAcc_isSome_iff (u : Str) (d : Dir) :
    (lookupAcc u d).isSome = true ↔ u ∈ d.map Prod.fst := by
  induction d with
  | nil =>
    constructor
    · intro h; exact Bool.noConfusion h
    · intro h; exact absurd h (List.not_mem_nil u)
  | cons p t ih =>
    by_cases hp : p.1 = u
    · have heq : lookupAcc u (p :: t) = some p.2 := by
        rw [show lookupAcc u (p :: t) = if p.1 = u then some p.2 else lookupAcc u t from rfl,
          if_pos hp]
      rw [heq, List.map_cons, List.mem_cons]
      exact ⟨fun _ => Or.inl hp.symm, fun _ => rfl⟩
    · have heq : lookupAcc u (p :: t) = lookupAcc u t := by
        rw [show lookupAcc u (p :: t) = if p.1 = u then some p.2 else lookupAcc u t from rfl,
          if_neg hp]
      rw [heq, List.map_cons, List.mem_cons]
      constructor
      · intro h; exact Or.inr (ih.mp h)
      · intro h
        rcases h with h | h
        · exact absurd h.symm hp
        · exact ih.mpr h

theorem containsKey_iff_mem (u : Str) (d : Dir) :
    containsKey u d = true ↔ u ∈ d.map Prod.fst := by
  unfold containsKey
  exact lookupAcc_isSome_iff u d

/-- The per-entry effect of `DeleteAccount(u)` on the directory, as the grpc
variant writes it directly (`grpc_protocol/server.py` lines 189-190): filter
every message sent by `u` out of both sequences, keep everything else in
order. -/
def scrubEntry (u : Str) (p : Str × Account) : Str × Account :=
  (p.1, { p.2 with
          unread_messages := p.2.unread_messages.filter (fun m => ¬(m.sender = u))
          read_messages := p.2.read_messages.filter (fun m => ¬(m.sender = u)) })

/-- Replacing an account's record with one holding the same combined
read-then-unread message list leaves the directory's tagged message list
unchanged. -/
theorem allMsgs_setAcc_preserve (u : Str) (a a' : Account) (d : Dir)
    (hnodup : NodupKeys d) (hlook : lookupAcc u d = some a)
    (hpres : a'.read_messages ++ a'.unread_messages =
      a.read_messages ++ a.unread_messages) :
    allMsgs (setAcc u a' d) = allMsgs d := by
  obtain ⟨d₁, d₂, heq, _, _, hset⟩ := setAcc_decomp u a d hnodup hlook
  rw [hset a', heq, allMsgs_append, allMsgs_append,
    show allMsgs ((u, a') :: d₂) = tagMsgs (u, a') ++ allMsgs d₂ from rfl,
    show allMsgs ((u, a) :: d₂) = tagMsgs (u, a) ++ allMsgs d₂ from rfl,
    show tagMsgs (u, a') = tagMsgs (u, a) from by
      simp only [tagMsgs]
      rw [hpres]]

/-- Appending one message to an account's unread list adds exactly that
owner-tagged message to the directory's message multiset. -/
theorem inboxes_setAcc_append (u : Str) (a : Account) (m : Msg) (d : Dir)
    (hnodup : NodupKeys d) (hlook : lookupAcc u d = some a) :
    inboxes (setAcc u { a with unread_messages := a.unread_messages ++ [m] } d) =
      (u, m) ::ₘ inboxes d := by
  obtain ⟨d₁, d₂, heq, _, _, hset⟩ := setAcc_decomp u a d hnodup hlook
  unfold inboxes
  rw [hset _, heq, allMsgs_append, allMsgs_append,
    show allMsgs ((u, { a with unread_messages := a.unread_messages ++ [m] }) :: d₂) =
      tagMsgs (u, { a with unread_messages := a.unread_messages ++ [m] }) ++ allMsgs d₂
      from rfl,
    show allMsgs ((u, a) :: d₂) = tagMsgs (u, a) ++ allMsgs d₂ from rfl,
    show tagMsgs (u, { a with unread_messages := a.unread_messages ++ [m] }) =
      tagMsgs (u, a) ++ [(u, m)] from by
      simp only [tagMsgs]
      rw [← List.append_assoc, List.map_append]
      rfl]
  rw [show ((u, m) ::ₘ (↑(allMsgs d₁ ++ (tagMsgs (u, a) ++ allMsgs d₂)) : Multiset (Str × Msg)))
      = ↑((u, m) :: (allMsgs d₁ ++ (tagMsgs (u, a) ++ allMsgs d₂))) from rfl,
    Multiset.coe_eq_coe]
  have step1 : List.Perm
      (allMsgs d₁ ++ ((tagMsgs (u, a) ++ [(u, m)]) ++ allMsgs d₂))
      (allMsgs d₁ ++ (((u, m) :: tagMsgs (u, a)) ++ allMsgs d₂)) :=
    List.Perm.append_left _
      (List.Perm.append_right _ (List.perm_append_singleton _ _))
  have step2 : List.Perm
      (allMsgs d₁ ++ (((u, m) :: tagMsgs (u, a)) ++ allMsgs d₂))
      ((u, m) :: (allMsgs d₁ ++ (tagMsgs (u, a) ++ allMsgs d₂))) := by
    rw [List.cons_append]
    exact List.perm_middle
  exact step1.trans step2

/-! ## Claim theorems -/

/-- C8: for every envelope whose version field is a single character and
whose operation field is a two-character string, `deserialize (serialize e)`
returns `e` itself — the codec round-trips version, operation and payload
exactly. -/
theorem serialize_deserialize_roundtrip (e : Envelope)
    (hv : e.version.length = 1) (ho : e.operation.length = 2) :
    deserialize (serialize e) = some e := by
  obtain ⟨v, o, i⟩ := e
  simp only at hv ho
  obtain ⟨a, ha⟩ := List.length_eq_one.mp hv
  obtain ⟨b, c, hbc⟩ := List.length_eq_two.mp ho
  subst ha hbc
  rfl

/-- Witness for C8: the round trip evaluated on a concrete LOGIN envelope. -/
theorem serialize_deserialize_roundtrip_witness :
    deserialize (serialize ⟨"1".data, Operations.LOGIN, "alice\npw".data⟩) =
      some ⟨"1".data, Operations.LOGIN, "alice\npw".data⟩ :=
  serialize_deserialize_roundtrip ⟨"1".data, Operations.LOGIN, "alice\npw".data⟩
    (by decide) (by decide)

/-- C9 counterexample: a header of blank padding only is NOT treated as the
peer-closed end-of-stream signal — `if not msg_len` is false for a non-empty
string, so the handler goes on to `int(msg_len)`, which raises `ValueError`. -/
theorem blank_header_not_peer_closed :
    headerStep "   ".data = HeaderOutcome.err ∧
    ¬ HeaderOutcome.err = HeaderOutcome.peerClosed := by
  decide

/-- C9 (amended): only the EMPTY received header is the peer-closed
end-of-stream signal that terminates the connection cleanly; a non-empty
header consisting only of blank padding is instead fed to `int()` and raises
an uncaught `ValueError`. -/
theorem header_empty_only_eos :
    headerStep [] = HeaderOutcome.peerClosed ∧
    ∀ hdr : Str, ¬ hdr = [] → (∀ c ∈ hdr, c = ' ') →
      headerStep hdr = HeaderOutcome.err := by
  refine ⟨rfl, ?_⟩
  intro hdr hne hblank
  have hdrop : hdr.dropWhile (fun c => decide (c = ' ')) = [] :=
    List.dropWhile_eq_nil_iff.mpr (fun x hx => by simpa using hblank x hx)
  have hstrip : stripSpaces hdr = [] := by
    unfold stripSpaces
    rw [hdrop]
    rfl
  have hpy : pyInt hdr = none := by
    unfold pyInt
    rw [hstrip]
    rfl
  unfold headerStep
  rw [if_neg (by simpa using hne), hpy]

/-- Witness for C9's amended theorem: a single-space header errors out. -/
theorem header_empty_only_eos_witness :
    headerStep [' '] = HeaderOutcome.err :=
  header_empty_only_eos.2 [' '] (by decide) (by decide)

/-- C5: evaluating the connection handler on an envelope whose version "2"
differs from the server's `VERSION` "1": the handler merely clears
`connection_flag` and then still dispatches the LOGIN, mutates the directory
(the account is created) and sends a SUCCESS response — the claim's
"never dispatches / never mutates / never responds" is violated by the code. -/
theorem version_mismatch_still_dispatched :
    ¬ ("2".data = VERSION) ∧
    handleEnvelope [] ⟨"2".data, Operations.LOGIN, "alice\npw".data⟩ =
      ⟨[("alice".data, ⟨"pw".data, [], []⟩)],
        some ⟨VERSION, Operations.SUCCESS, []⟩, false, none⟩ := by
  decide

/-- C2: for a username present in the directory, `DeleteAccount(u)` succeeds,
removes `u`'s entry, and removes from every remaining account's read and
unread sequences exactly the messages whose sender is `u`, keeping all other
messages in their original relative order (the result is literally a filter
of each sequence); moreover the wire variant's reverse-iteration delete loop
computes the same directory as the grpc variant's comprehension. -/
theorem deleteAccount_cascade (u : Str) (d : Dir) (hnodup : NodupKeys d)
    (hmem : containsKey u d = true) :
    (deleteAccountWire u d).2 = none ∧
    (deleteAccountWire u d).1 = (d.filter (fun p => ¬(p.1 = u))).map (scrubEntry u) ∧
    deleteAccountWire u d = deleteAccountGrpc u d := by
  have hfg : (fun p : Str × Account => (p.1,
      { p.2 with
        unread_messages := cascadePass u p.2.unread_messages
        read_messages := cascadePass u p.2.read_messages })) = scrubEntry u := by
    funext p
    unfold scrubEntry
    rw [cascadePass_eq_filter, cascadePass_eq_filter]
  have hgg : (fun p : Str × Account => (p.1,
      { p.2 with
        unread_messages := p.2.unread_messages.filter (fun m => ¬(m.sender = u))
        read_messages := p.2.read_messages.filter (fun m => ¬(m.sender = u)) })) =
      scrubEntry u := by
    funext p
    rfl
  have hkeys : (d.map (scrubEntry u)).map Prod.fst = d.map Prod.fst := by
    rw [List.map_map]
    rfl
  have hmem' : containsKey u (d.map (scrubEntry u)) = true := by
    rw [containsKey_iff_mem, hkeys]
    exact (containsKey_iff_mem u d).mp hmem
  have hnodup' : NodupKeys (d.map (scrubEntry u)) := by
    unfold NodupKeys
    rw [hkeys]
    exact hnodup
  have hwire : deleteAccountWire u d = (eraseKey u (d.map (scrubEntry u)), none) := by
    unfold deleteAccountWire
    rw [hfg, if_pos hmem']
  refine ⟨by rw [hwire], ?_, ?_⟩
  · rw [hwire, eraseKey_eq_filter u _ hnodup',
      filter_map_comm (scrubEntry u) _ (fun p => ¬(p.1 = u)) (fun x => rfl) d]
  · unfold deleteAccountWire deleteAccountGrpc
    rw [hfg, hgg]

/-- Witness for C2: alice sent to bob and carol; deleting alice removes her
entry and exactly her messages from both inboxes, and the two protocol
variants agree. -/
theorem deleteAccount_cascade_witness :
    (deleteAccountWire "alice".data
        [("alice".data, ⟨"pa".data, [], []⟩),
         ("bob".data, ⟨"pb".data, [⟨"alice".data, "r1".data⟩, ⟨"carol".data, "r2".data⟩],
            [⟨"alice".data, "u1".data⟩]⟩),
         ("carol".data, ⟨"pc".data, [],
            [⟨"alice".data, "u2".data⟩, ⟨"bob".data, "u3".data⟩]⟩)]).1 =
      [("bob".data, ⟨"pb".data, [⟨"carol".data, "r2".data⟩], []⟩),
       ("carol".data, ⟨"pc".data, [], [⟨"bob".data, "u3".data⟩]⟩)] :=
  (deleteAccount_cascade "alice".data
    [("alice".data, ⟨"pa".data, [], []⟩),
     ("bob".data, ⟨"pb".data, [⟨"alice".data, "r1".data⟩, ⟨"carol".data, "r2".data⟩],
        [⟨"alice".data, "u1".data⟩]⟩),
     ("carol".data, ⟨"pc".data, [],
        [⟨"alice".data, "u2".data⟩, ⟨"bob".data, "u3".data⟩]⟩)]
    (by decide) (by decide)).2.1

/-- C4: for an existing account, `DeleteMessage` with an out-of-bounds index
(in Python terms: `idx >= len` or `idx < -len`) fails with the list
index-out-of-range error and leaves the directory — in particular the
account's read sequence — unchanged; with an in-bounds 0-based index it
succeeds and removes exactly the message at that position, leaving every
other account untouched. -/
theorem deleteMessage_spec (u : Str) (i : Int) (d : Dir) (a : Account)
    (hlook : lookupAcc u d = some a) :
    ((i < -(a.read_messages.length : Int) ∨ (a.read_messages.length : Int) ≤ i) →
      deleteMessageOp u i d = (d, some PyErr.indexError)) ∧
    (0 ≤ i → i < (a.read_messages.length : Int) →
      (deleteMessageOp u i d).2 = none ∧
      lookupAcc u (deleteMessageOp u i d).1 =
        some { a with read_messages := a.read_messages.eraseIdx i.toNat } ∧
      ∀ v, ¬ v = u → lookupAcc v (deleteMessageOp u i d).1 = lookupAcc v d) := by
  constructor
  · intro hout
    have hdel : pyDelIdx a.read_messages i = none := by
      simp only [pyDelIdx]
      split_ifs with h1 h2 h3
      · exfalso; omega
      · rfl
      · exfalso; omega
      · rfl
    simp only [deleteMessageOp, hlook, hdel]
  · intro h0 hlt
    have hdel : pyDelIdx a.read_messages i =
        some (a.read_messages.eraseIdx i.toNat) := by
      simp only [pyDelIdx]
      rw [if_neg (by omega : ¬ i < 0), if_pos ⟨h0, hlt⟩]
    have hop : deleteMessageOp u i d =
        (dictSet u { a with read_messages := a.read_messages.eraseIdx i.toNat } d, none) := by
      simp only [deleteMessageOp, hlook, hdel]
    refine ⟨by rw [hop], ?_, ?_⟩
    · rw [hop, dictSet_of_lookup u a _ d hlook]
      exact lookupAcc_setAcc_self u a _ d hlook
    · intro v hv
      rw [hop, dictSet_of_lookup u a _ d hlook]
      exact lookupAcc_setAcc_ne u v _ d hv

/-- Witness for C4: on bob's two-message read sequence, index 5 raises the
out-of-range error and leaves the directory unchanged. -/
theorem deleteMessage_spec_witness :
    deleteMessageOp "bob".data 5
        [("bob".data, ⟨"pw".data, [⟨"al".data, "x".data⟩, ⟨"al".data, "y".data⟩], []⟩)] =
      ([("bob".data, ⟨"pw".data, [⟨"al".data, "x".data⟩, ⟨"al".data, "y".data⟩], []⟩)],
        some PyErr.indexError) :=
  (deleteMessage_spec "bob".data 5
    [("bob".data, ⟨"pw".data, [⟨"al".data, "x".data⟩, ⟨"al".data, "y".data⟩], []⟩)]
    ⟨"pw".data, [⟨"al".data, "x".data⟩, ⟨"al".data, "y".data⟩], []⟩
    (by decide)).1 (by decide)

/-- C10: for an existing account with a non-empty read sequence,
`DeleteMessage` with a negative index whose absolute value is at most the
sequence length does NOT fail: it deletes the message at position
`length + index` (counted from the end, so -1 deletes the most recent read
message) and succeeds, leaving other accounts untouched. -/
theorem deleteMessage_negative_index (u : Str) (i : Int) (d : Dir) (a : Account)
    (hlook : lookupAcc u d = some a) (hneg : i < 0)
    (hge : -(a.read_messages.length : Int) ≤ i) :
    (deleteMessageOp u i d).2 = none ∧
    lookupAcc u (deleteMessageOp u i d).1 =
      some { a with read_messages :=
        a.read_messages.eraseIdx ((a.read_messages.length : Int) + i).toNat } ∧
    ∀ v, ¬ v = u → lookupAcc v (deleteMessageOp u i d).1 = lookupAcc v d := by
  have hdel : pyDelIdx a.read_messages i =
      some (a.read_messages.eraseIdx ((a.read_messages.length : Int) + i).toNat) := by
    simp only [pyDelIdx]
    rw [if_pos hneg, if_pos (by omega)]
  have hop : deleteMessageOp u i d =
      (dictSet u { a with read_messages :=
        a.read_messages.eraseIdx ((a.read_messages.length : Int) + i).toNat } d, none) := by
    simp only [deleteMessageOp, hlook, hdel]
  refine ⟨by rw [hop], ?_, ?_⟩
  · rw [hop, dictSet_of_lookup u a _ d hlook]
    exact lookupAcc_setAcc_self u a _ d hlook
  · intro v hv
    rw [hop, dictSet_of_lookup u a _ d hlook]
    exact lookupAcc_setAcc_ne u v _ d hv

/-- Witness for C10: index -1 on bob's two-message read sequence deletes the
most recent read message and succeeds. -/
theorem deleteMessage_negative_index_witness :
    lookupAcc "bob".data
        (deleteMessageOp "bob".data (-1)
          [("bob".data, ⟨"pw".data, [⟨"al".data, "x".data⟩, ⟨"al".data, "y".data⟩], []⟩)]).1 =
      some ⟨"pw".data, [⟨"al".data, "x".data⟩], []⟩ :=
  (deleteMessage_negative_index "bob".data (-1)
    [("bob".data, ⟨"pw".data, [⟨"al".data, "x".data⟩, ⟨"al".data, "y".data⟩], []⟩)]
    ⟨"pw".data, [⟨"al".data, "x".data⟩, ⟨"al".data, "y".data⟩], []⟩
    (by decide) (by decide) (by decide)).2.1

/-- C3: for an existing account and a non-negative count, `ReadUnread`
returns exactly the first `min count available` unread messages in arrival
order, moves them (in that order) to the end of the read sequence, keeps the
rest unread, touches no other account, is a no-op for count 0, and returns
all available messages when the count exceeds the backlog. -/
theorem readUnread_spec (u : Str) (n : Int) (d : Dir) (a : Account)
    (hnodup : NodupKeys d) (hlook : lookupAcc u d = some a) (hn : 0 ≤ n) :
    (readUnreadOp u n d).2.1 = a.unread_messages.take n.toNat ∧
    (readUnreadOp u n d).2.2 = none ∧
    lookupAcc u (readUnreadOp u n d).1 =
      some ⟨a.password, a.read_messages ++ a.unread_messages.take n.toNat,
        a.unread_messages.drop n.toNat⟩ ∧
    (∀ v, ¬ v = u → lookupAcc v (readUnreadOp u n d).1 = lookupAcc v d) ∧
    (n = 0 → readUnreadOp u n d = (d, [], none)) ∧
    ((a.unread_messages.length : Int) ≤ n →
      (readUnreadOp u n d).2.1 = a.unread_messages) := by
  have hto : sliceTo a.unread_messages n = a.unread_messages.take n.toNat := by
    unfold sliceTo
    rw [if_neg (by omega)]
  have hfrom : sliceFrom a.unread_messages n = a.unread_messages.drop n.toNat := by
    unfold sliceFrom
    rw [if_neg (by omega)]
  have hop : readUnreadOp u n d =
      (dictSet u { a with
          read_messages := a.read_messages ++ a.unread_messages.take n.toNat
          unread_messages := a.unread_messages.drop n.toNat } d,
        a.unread_messages.take n.toNat, none) := by
    simp only [readUnreadOp, hlook, hto, hfrom]
  refine ⟨by rw [hop], by rw [hop], ?_, ?_, ?_, ?_⟩
  · rw [hop, dictSet_of_lookup u a _ d hlook]
    exact lookupAcc_setAcc_self u a _ d hlook
  · intro v hv
    rw [hop, dictSet_of_lookup u a _ d hlook]
    exact lookupAcc_setAcc_ne u v _ d hv
  · intro h0
    subst h0
    rw [hop]
    have ha : { a with
        read_messages := a.read_messages ++ a.unread_messages.take (Int.toNat 0)
        unread_messages := a.unread_messages.drop (Int.toNat 0) } = a := by
      obtain ⟨pw, r, ur⟩ := a
      simp
    rw [ha, dictSet_of_lookup u a a d hlook, setAcc_lookup_self u a d hnodup hlook]
    rfl
  · intro hge
    rw [hop]
    exact List.take_of_length_le (by omega)

/-- Witness for C3: reading 2 of bob's 3 unread messages returns the first
two in order. -/
theorem readUnread_spec_witness :
    (readUnreadOp "bob".data 2
        [("bob".data, ⟨"pw".data, [],
          [⟨"al".data, "m1".data⟩, ⟨"al".data, "m2".data⟩, ⟨"al".data, "m3".data⟩]⟩)]).2.1 =
      [⟨"al".data, "m1".data⟩, ⟨"al".data, "m2".data⟩] :=
  (readUnread_spec "bob".data 2
    [("bob".data, ⟨"pw".data, [],
      [⟨"al".data, "m1".data⟩, ⟨"al".data, "m2".data⟩, ⟨"al".data, "m3".data⟩]⟩)]
    ⟨"pw".data, [],
      [⟨"al".data, "m1".data⟩, ⟨"al".data, "m2".data⟩, ⟨"al".data, "m3".data⟩]⟩
    (by decide) (by decide) (by decide)).1

/-- C6: on the directory `{"Alice"}` and query "A", the wire-protocol server
returns no match (it tests the raw query against the lowercased username),
while the spec's predicate — lowercased query contained in lowercased
username — holds, and the grpc variant (which lowercases the query first)
does return "Alice". -/
theorem listAccounts_uppercase_divergence :
    listAccountsWire "A".data [("Alice".data, ⟨"pw".data, [], []⟩)] = [] ∧
    listAccountsGrpc "A".data [("Alice".data, ⟨"pw".data, [], []⟩)] = ["Alice".data] ∧
    pyIn (lowerStr "A".data) (lowerStr "Alice".data) = true := by
  decide

/-- C7: every account-store operation that can produce a new directory and is
not an explicit delete preserves the directory's owner-tagged multiset of
accepted messages, except that a successful SEND_MESSAGE to an existing
recipient grows it by exactly the one accepted message: LOGIN never touches
any message list, and READ_UNREAD moves messages between its account's two
sequences without duplicating or dropping any. (READ_ALL, COUNT_UNREAD and
LIST_ACCOUNTS return data without producing a directory at all — `dispatch`
passes `d` through unchanged for them — so these three cover every
non-deleting mutation path.) Hence each accepted message sits in exactly one
of its owner's two sequences until a delete operation removes it. -/
theorem store_conserves_messages (d : Dir) (hnodup : NodupKeys d) :
    (∀ un pw, inboxes (loginOp un pw d).1 = inboxes d) ∧
    (∀ s r b, inboxes (sendMessageOp s r b d).1 =
      (if containsKey r d then (r, ⟨s, b⟩) ::ₘ inboxes d else inboxes d)) ∧
    (∀ un n, inboxes (readUnreadOp un n d).1 = inboxes d) := by
  refine ⟨?_, ?_, ?_⟩
  · intro un pw
    unfold loginOp
    cases hlk : lookupAcc un d with
    | some a => rfl
    | none =>
      show inboxes (dictSet un ⟨pw, [], []⟩ d) = inboxes d
      unfold dictSet containsKey
      rw [hlk]
      show inboxes (d ++ [(un, ⟨pw, [], []⟩)]) = inboxes d
      unfold inboxes
      rw [allMsgs_append,
        show allMsgs [(un, (⟨pw, [], []⟩ : Account))] = [] from rfl,
        List.append_nil]
  · intro s r b
    unfold sendMessageOp
    cases hlk : lookupAcc r d with
    | none =>
      have hc : containsKey r d = false := by
        unfold containsKey
        rw [hlk]
        rfl
      rw [hc]
      rfl
    | some a =>
      have hc : containsKey r d = true := by
        unfold containsKey
        rw [hlk]
        rfl
      rw [hc]
      show inboxes (dictSet r { a with
        unread_messages := a.unread_messages ++ [⟨s, b⟩] } d) = (r, ⟨s, b⟩) ::ₘ inboxes d
      rw [dictSet_of_lookup r a _ d hlk]
      exact inboxes_setAcc_append r a ⟨s, b⟩ d hnodup hlk
  · intro un n
    unfold readUnreadOp
    cases hlk : lookupAcc un d with
    | none => rfl
    | some a =>
      show inboxes (dictSet un { a with
        read_messages := a.read_messages ++ sliceTo a.unread_messages n
        unread_messages := sliceFrom a.unread_messages n } d) = inboxes d
      rw [dictSet_of_lookup un a _ d hlk]
      unfold inboxes
      exact congrArg _ (allMsgs_setAcc_preserve un a _ d hnodup hlk (by
        show (a.read_messages ++ sliceTo a.unread_messages n) ++
            sliceFrom a.unread_messages n = a.read_messages ++ a.unread_messages
        rw [List.append_assoc, sliceTo_append_sliceFrom]))

/-- Witness for C7: READ_UNREAD of one message on bob's backlog preserves the
directory's owner-tagged message multiset. -/
theorem store_conserves_messages_witness :
    inboxes (readUnreadOp "bob".data 1
        [("bob".data, ⟨"pw".data, [], [⟨"al".data, "m".data⟩]⟩)]).1 =
      inboxes [("bob".data, ⟨"pw".data, [], [⟨"al".data, "m".data⟩]⟩)] :=
  (store_conserves_messages
    [("bob".data, ⟨"pw".data, [], [⟨"al".data, "m".data⟩]⟩)]
    (by decide)).2.2 "bob".data 1

end Chat
